import Mathlib

/-!
Verification of the Zeno spaced-repetition scheduler and practice-session
composer, together with the OCR-pipeline utilities shipped in the frontend.

The backend learning modules (`backend/api/learning/fsrs.py`,
`session_manager.py`, `card_manager.py`) are referenced throughout the
repository's documentation and called from `frontend/services/learningService.ts`
and the PracticeSession component, but their sources are not part of the
checkout; where a claim is decided by that missing code, the corresponding
definitions are modelled from the specification (each such definition says so
in its doc comment).  The utilities `truncateText`, `detectDocumentType` and
`TranscriptionAPIClient.submitTranscription` are embedded from the TypeScript
sources directly.
-/

namespace Zeno

/-- The four FSRS review ratings (1 = Again, 2 = Hard, 3 = Good, 4 = Easy). -/
inductive Rating where
  | again
  | hard
  | good
  | easy
deriving DecidableEq, Repr

/-- Card lifecycle states of the memory model. -/
inductive LifecycleState where
  | newCard
  | learning
  | review
  | relearning
deriving DecidableEq, Repr

/-- Modelled from the spec: the per-(student, item) memory-state record of
`fsrs.py` (missing from the checkout), §3 of the design.  Timestamps and the
continuous quantities are rationals (days). -/
structure MemoryState where
  stability : ℚ
  difficulty : ℚ
  repetitionCount : ℕ
  lapseCount : ℕ
  lifecycleState : LifecycleState
  lastReviewedAt : ℚ
  dueAt : ℚ
deriving DecidableEq, Repr

/-- Clamp a rational into the interval `[lo, hi]`. -/
def clampQ (x lo hi : ℚ) : ℚ := max lo (min hi x)

/-- Modelled from the spec: the per-rating initial stabilities of the missing
`fsrs.py` — "Initial stability based on rating (Again: 0.4d, Good: 2.4d,
Easy: 5.8d)" (LEARNING_SYSTEM_SETUP.md); the Hard value follows the FSRS v4
defaults, keeping the constants strictly increasing as the spec requires. -/
def baseStability : Rating → ℚ
  | .again => 2/5
  | .hard => 3/5
  | .good => 12/5
  | .easy => 29/5

/-- Modelled from the spec: the fixed mid-scale initial difficulty. -/
def baseDifficulty : ℚ := 5

/-- Modelled from the spec: the power-law forgetting-curve factor `f` of
`R(t, S) = (1 + t/(f*S))^(-g)`, at the FSRS choice `f = 9`, `g = 1`. -/
def forgettingFactor : ℚ := 9

/-- Modelled from the spec: the configurable target retention, default 0.9. -/
def targetRetention : ℚ := 9/10

/-- Modelled from the spec: retrievability after `t` days at stability `S`,
the concrete power-law member `R(t, S) = (1 + t/(9*S))⁻¹` (`f = 9`, `g = 1`). -/
def retrievability (t S : ℚ) : ℚ := 1 / (1 + t / (forgettingFactor * S))

/-- Modelled from the spec: the closed-form inversion of the forgetting curve,
the `Δ` with `R(Δ, S) = targetRetention`. -/
def nextInterval (S : ℚ) : ℚ := forgettingFactor * S * (1 / targetRetention - 1)

/-- Modelled from the spec: the per-rating difficulty delta, positive for
Again, negative for Easy. -/
def deltaD : Rating → ℚ
  | .again => 2
  | .hard => 1
  | .good => 0
  | .easy => -1

/-- Modelled from the spec: the lapse stability decay, a function of the new
difficulty with values in `(0, 1)` on the difficulty scale `[1, 10]`. -/
def lapseDecay (d : ℚ) : ℚ := (11 - clampQ d 1 10) / 20

/-- Modelled from the spec: the per-rating weight of the success
stabilization factor, increasing from Hard through Easy. -/
def succWeight : Rating → ℚ
  | .again => 0
  | .hard => 1/10
  | .good => 1/2
  | .easy => 1

/-- Modelled from the spec: the success stabilization factor, strictly
greater than 1 for Hard/Good/Easy and increasing in the rating weight and in
`1 - r`. -/
def stabilizationFactor (r : ℚ) (rt : Rating) : ℚ :=
  1 + succWeight rt * (2 - clampQ r 0 1)

/-- Modelled from the spec: `MemoryModel.initialize(rating)` of the missing
`fsrs.py` — base stability per rating, base difficulty, lifecycle Learning for
Again/Hard and Review for Good/Easy, due time by curve inversion. -/
def initCard (r : Rating) (now : ℚ) : MemoryState :=
  { stability := baseStability r
    difficulty := baseDifficulty
    repetitionCount := 0
    lapseCount := 0
    lifecycleState :=
      match r with
      | .again => .learning
      | .hard => .learning
      | .good => .review
      | .easy => .review
    lastReviewedAt := now
    dueAt := now + nextInterval (baseStability r) }

/-- Modelled from the spec: `MemoryModel.update(state, rating, elapsedDays)`
of the missing `fsrs.py` (§4.1): difficulty clamped into `[1, 10]`; on Again
the card lapses (Relearning, lapse count up, stability shrunk by
`lapseDecay`); otherwise stability grows by the stabilization factor; the new
due time inverts the forgetting curve at the target retention. -/
def update (st : MemoryState) (rating : Rating) (elapsedDays now : ℚ) : MemoryState :=
  let r := clampQ (retrievability elapsedDays st.stability) 0 1
  let d := clampQ (st.difficulty + deltaD rating) 1 10
  match rating with
  | .again =>
      let S := st.stability * lapseDecay d
      { stability := S
        difficulty := d
        repetitionCount := st.repetitionCount + 1
        lapseCount := st.lapseCount + 1
        lifecycleState := .relearning
        lastReviewedAt := now
        dueAt := now + nextInterval S }
  | rt =>
      let S := st.stability * stabilizationFactor r rt
      { stability := S
        difficulty := d
        repetitionCount := st.repetitionCount + 1
        lapseCount := st.lapseCount
        lifecycleState := .review
        lastReviewedAt := now
        dueAt := now + nextInterval S }

/-- The clamped value lies in the interval when the bounds are ordered. -/
theorem clampQ_mem (x lo hi : ℚ) (h : lo ≤ hi) :
    lo ≤ clampQ x lo hi ∧ clampQ x lo hi ≤ hi := by
  constructor
  · exact le_max_left _ _
  · exact max_le h (min_le_left _ _)

/-- The lapse decay lies strictly between 0 and 1. -/
theorem lapseDecay_mem (d : ℚ) : 0 < lapseDecay d ∧ lapseDecay d < 1 := by
  obtain ⟨h1, h2⟩ := clampQ_mem d 1 10 (by norm_num)
  unfold lapseDecay
  constructor <;> nlinarith

/-- C1: a review rated Again strictly shrinks stability, moves the card into
Relearning, and increases the lapse count by exactly one. -/
theorem again_review_lapses (st : MemoryState) (elapsedDays now : ℚ)
    (hS : 0 < st.stability) :
    (update st .again elapsedDays now).stability < st.stability ∧
    (update st .again elapsedDays now).lifecycleState = .relearning ∧
    (update st .again elapsedDays now).lapseCount = st.lapseCount + 1 := by
  obtain ⟨hd0, hd1⟩ := lapseDecay_mem (clampQ (st.difficulty + deltaD .again) 1 10)
  refine ⟨?_, rfl, rfl⟩
  show st.stability * lapseDecay _ < st.stability
  nlinarith

/-- C1 witness: the Again theorem at a concrete memory state. -/
theorem again_review_lapses_witness :
    0 < (MemoryState.mk 2 5 3 0 .review 0 2 : MemoryState).stability ∧
    ((update (MemoryState.mk 2 5 3 0 .review 0 2) .again 2 2).stability <
        (MemoryState.mk 2 5 3 0 .review 0 2 : MemoryState).stability ∧
      (update (MemoryState.mk 2 5 3 0 .review 0 2) .again 2 2).lifecycleState = .relearning ∧
      (update (MemoryState.mk 2 5 3 0 .review 0 2) .again 2 2).lapseCount = 0 + 1) :=
  ⟨by norm_num, again_review_lapses (MemoryState.mk 2 5 3 0 .review 0 2) 2 2 (by norm_num)⟩

/-- C5: initialization sets stability to the base constant of the rating,
those constants are strictly increasing from Again through Easy, and the
lifecycle starts in Learning for Again/Hard and in Review for Good/Easy. -/
theorem initCard_base_stability :
    (∀ (r : Rating) (now : ℚ), (initCard r now).stability = baseStability r) ∧
    (baseStability .again < baseStability .hard ∧
      baseStability .hard < baseStability .good ∧
      baseStability .good < baseStability .easy) ∧
    (∀ now : ℚ,
      (initCard .again now).lifecycleState = .learning ∧
      (initCard .hard now).lifecycleState = .learning ∧
      (initCard .good now).lifecycleState = .review ∧
      (initCard .easy now).lifecycleState = .review) := by
  refine ⟨fun r now => rfl, ⟨?_, ?_, ?_⟩, fun now => ⟨rfl, rfl, rfl, rfl⟩⟩ <;> norm_num [baseStability]

/-- The per-rating success weight is non-negative. -/
theorem succWeight_nonneg (rt : Rating) : 0 ≤ succWeight rt := by
  cases rt <;> norm_num [succWeight]

/-- The success stabilization factor is at least 1. -/
theorem stabilizationFactor_ge_one (r : ℚ) (rt : Rating) :
    1 ≤ stabilizationFactor r rt := by
  obtain ⟨h0, h1⟩ := clampQ_mem r 0 1 (by norm_num)
  have hw := succWeight_nonneg rt
  unfold stabilizationFactor
  nlinarith

/-- The updated stability is positive whenever the prior one is. -/
theorem update_stability_pos (st : MemoryState) (rating : Rating) (elapsedDays now : ℚ)
    (hS : 0 < st.stability) : 0 < (update st rating elapsedDays now).stability := by
  cases rating with
  | again =>
      obtain ⟨hd0, hd1⟩ := lapseDecay_mem (clampQ (st.difficulty + deltaD .again) 1 10)
      show 0 < st.stability * lapseDecay _
      positivity
  | hard =>
      have h := stabilizationFactor_ge_one
        (clampQ (retrievability elapsedDays st.stability) 0 1) .hard
      show 0 < st.stability * stabilizationFactor _ .hard
      nlinarith
  | good =>
      have h := stabilizationFactor_ge_one
        (clampQ (retrievability elapsedDays st.stability) 0 1) .good
      show 0 < st.stability * stabilizationFactor _ .good
      nlinarith
  | easy =>
      have h := stabilizationFactor_ge_one
        (clampQ (retrievability elapsedDays st.stability) 0 1) .easy
      show 0 < st.stability * stabilizationFactor _ .easy
      nlinarith

/-- The forgetting curve evaluated at the inverted interval returns exactly
the target retention, for any positive stability. -/
theorem retrievability_nextInterval (S : ℚ) (hS : 0 < S) :
    retrievability (nextInterval S) S = targetRetention := by
  unfold retrievability nextInterval forgettingFactor targetRetention
  rw [div_eq_iff (by positivity)]
  field_simp
  ring

/-- C6: after any review update the new due time is at least the new
last-reviewed time, and the retrievability of the scheduled gap at the new
stability is exactly the target retention (0.9), hence within any tolerance. -/
theorem update_due_inverts_curve (st : MemoryState) (rating : Rating)
    (elapsedDays now : ℚ) (hS : 0 < st.stability) :
    (update st rating elapsedDays now).lastReviewedAt ≤
        (update st rating elapsedDays now).dueAt ∧
    retrievability
        ((update st rating elapsedDays now).dueAt -
          (update st rating elapsedDays now).lastReviewedAt)
        (update st rating elapsedDays now).stability = targetRetention := by
  have hpos := update_stability_pos st rating elapsedDays now hS
  have hlast : (update st rating elapsedDays now).lastReviewedAt = now := by
    cases rating <;> rfl
  have hdue : (update st rating elapsedDays now).dueAt =
      now + nextInterval (update st rating elapsedDays now).stability := by
    cases rating <;> rfl
  constructor
  · rw [hlast, hdue]
    have : 0 ≤ nextInterval (update st rating elapsedDays now).stability := by
      unfold nextInterval forgettingFactor targetRetention
      nlinarith
    linarith
  · rw [hlast, hdue]
    have : now + nextInterval (update st rating elapsedDays now).stability - now =
        nextInterval (update st rating elapsedDays now).stability := by ring
    rw [this]
    exact retrievability_nextInterval _ hpos

/-- C6 witness: the due-time inversion theorem at a concrete review. -/
theorem update_due_inverts_curve_witness :
    0 < (MemoryState.mk 2 5 3 0 .review 0 2 : MemoryState).stability ∧
    ((update (MemoryState.mk 2 5 3 0 .review 0 2) .good 2 7).lastReviewedAt ≤
        (update (MemoryState.mk 2 5 3 0 .review 0 2) .good 2 7).dueAt ∧
      retrievability
          ((update (MemoryState.mk 2 5 3 0 .review 0 2) .good 2 7).dueAt -
            (update (MemoryState.mk 2 5 3 0 .review 0 2) .good 2 7).lastReviewedAt)
          (update (MemoryState.mk 2 5 3 0 .review 0 2) .good 2 7).stability =
        targetRetention) :=
  ⟨by norm_num, update_due_inverts_curve (MemoryState.mk 2 5 3 0 .review 0 2) .good 2 7 (by norm_num)⟩

/-- Practice-session lifecycle states (`'active' | 'completed' | 'abandoned'`
in `frontend/services/learningService.ts`). -/
inductive SessionStatus where
  | active
  | completed
  | abandoned
deriving DecidableEq, Repr

/-- One recorded card response of a session (`{itemId, rating, elapsedSeconds}`). -/
structure Response where
  itemId : ℕ
  rating : Rating
  elapsedSeconds : ℕ
deriving DecidableEq, Repr

/-- The session summary emitted on completion (accuracy counts, total time,
rating histogram), per §4.4 and Test 4.7 of TESTING_GUIDE.md. -/
structure SessionSummary where
  cardsCompleted : ℕ
  correctCount : ℕ
  totalTimeSeconds : ℕ
  againCount : ℕ
  hardCount : ℕ
  goodCount : ℕ
  easyCount : ℕ
deriving DecidableEq, Repr

/-- A rating counts as correct when it is Good or Easy. -/
def isCorrect : Rating → Bool
  | .good => true
  | .easy => true
  | _ => false

/-- Modelled from the spec: the summary computation of the missing
`session_manager.py` — accuracy numerator is the count of ratings ≥ Good,
plus total elapsed time and the rating-distribution histogram. -/
def computeSummary (rs : List Response) : SessionSummary :=
  { cardsCompleted := rs.length
    correctCount := (rs.filter (fun x => isCorrect x.rating)).length
    totalTimeSeconds := (rs.map (fun x => x.elapsedSeconds)).sum
    againCount := (rs.filter (fun x => x.rating == Rating.again)).length
    hardCount := (rs.filter (fun x => x.rating == Rating.hard)).length
    goodCount := (rs.filter (fun x => x.rating == Rating.good)).length
    easyCount := (rs.filter (fun x => x.rating == Rating.easy)).length }

/-- Modelled from the spec: the durable practice-session record (§3) owned by
the missing `session_manager.py` — fixed card sequence, cursor, ordered
responses, status, and the summary once completed. -/
structure PracticeSession where
  cardSequence : List ℕ
  cursor : ℕ
  responses : List Response
  status : SessionStatus
  summary : Option SessionSummary
deriving DecidableEq, Repr

/-- The typed submission errors of the error taxonomy (§7). -/
inductive SubmitError where
  | sessionClosed
  | outOfSequence
  | invalidRating
deriving DecidableEq, Repr

/-- Modelled from the spec: one rating submission against the session record,
from §4.4/§4.5 of the design (the `handleRating` flow of the PracticeSession
component against the missing backend): a non-Active session rejects with
`SessionClosed`; a wrong cursor item rejects with `OutOfSequence`; otherwise
the response is appended, the cursor advances, and reaching the end of the
sequence marks the session Completed and computes the summary.  An error
produces no successor state, so no transition occurs on rejection. -/
def submit (s : PracticeSession) (item : ℕ) (rt : Rating) (el : ℕ) :
    Except SubmitError PracticeSession :=
  if s.status = SessionStatus.active then
    if s.cardSequence.get? s.cursor = some item then
      let rs := s.responses ++ [⟨item, rt, el⟩]
      if s.cursor + 1 = s.cardSequence.length then
        Except.ok { s with cursor := s.cursor + 1, responses := rs,
                           status := .completed,
                           summary := some (computeSummary rs) }
      else
        Except.ok { s with cursor := s.cursor + 1, responses := rs }
    else
      Except.error .outOfSequence
  else
    Except.error .sessionClosed

/-- C2: on an Active session, submitting the last card of the sequence yields
Completed with the summary computed from the recorded responses, submitting a
non-last card stays Active, and a Completed or Abandoned session rejects any
submission with `SessionClosed` (no successor state, hence no transition). -/
theorem session_submit_transitions (s : PracticeSession) (item : ℕ)
    (rt : Rating) (el : ℕ) :
    (s.status = SessionStatus.active →
      s.cardSequence.get? s.cursor = some item →
      ((s.cursor + 1 = s.cardSequence.length →
          ∃ s2, submit s item rt el = Except.ok s2 ∧
            s2.status = SessionStatus.completed ∧
            s2.summary = some (computeSummary s2.responses)) ∧
        (s.cursor + 1 ≠ s.cardSequence.length →
          ∃ s2, submit s item rt el = Except.ok s2 ∧
            s2.status = SessionStatus.active))) ∧
    (s.status ≠ SessionStatus.active →
      submit s item rt el = Except.error SubmitError.sessionClosed) := by
  constructor
  · intro hact hcur
    constructor
    · intro hlen
      have hsub : submit s item rt el = Except.ok
          { s with
            cursor := s.cursor + 1
            responses := s.responses ++ [⟨item, rt, el⟩]
            status := .completed
            summary := some (computeSummary (s.responses ++ [⟨item, rt, el⟩])) } := by
        unfold submit
        rw [if_pos hact, if_pos hcur, if_pos hlen]
      exact ⟨_, hsub, rfl, rfl⟩
    · intro hlen
      have hsub : submit s item rt el = Except.ok
          { s with
            cursor := s.cursor + 1
            responses := s.responses ++ [⟨item, rt, el⟩] } := by
        unfold submit
        rw [if_pos hact, if_pos hcur, if_neg hlen]
      exact ⟨_, hsub, hact⟩
  · intro hact
    unfold submit
    rw [if_neg hact]

/-- A concrete one-card Active session for the witnesses. -/
def demoSession : PracticeSession := PracticeSession.mk [7] 0 [] .active none

/-- C2 witness: submitting the single card of a concrete Active session. -/
theorem session_submit_transitions_witness :
    demoSession.status = SessionStatus.active ∧
    demoSession.cardSequence.get? demoSession.cursor = some 7 ∧
    demoSession.cursor + 1 = demoSession.cardSequence.length ∧
    (∃ s2, submit demoSession 7 .good 3 = Except.ok s2 ∧
      s2.status = SessionStatus.completed ∧
      s2.summary = some (computeSummary s2.responses)) :=
  ⟨rfl, rfl, rfl,
    ((session_submit_transitions demoSession 7 .good 3).1 rfl rfl).1 rfl⟩

/-- Translated from the 1–4 rating contract (`SubmitCardRequest.rating` in
`frontend/services/learningService.ts` and the spec's rating domain): decode
a submitted numeric rating, `none` outside {1, 2, 3, 4}. -/
def toRating (r : ℚ) : Option Rating :=
  if r = 1 then some .again
  else if r = 2 then some .hard
  else if r = 3 then some .good
  else if r = 4 then some .easy
  else none

/-- The combined state a submission may mutate: the card's memory state and
the session record. -/
structure SubmissionState where
  memory : MemoryState
  session : PracticeSession
deriving DecidableEq, Repr

/-- Modelled from the spec: the `ReviewProcessor.submit` pipeline of the
missing backend (§4.4 and §7): the rating is validated first — any value
outside {1, 2, 3, 4} is rejected immediately as `InvalidRating` with no state
change; otherwise the session record and the memory state are updated
together. -/
def processSubmission (st : SubmissionState) (item : ℕ) (rating : ℚ)
    (elapsedSec : ℕ) (elapsedDays now : ℚ) :
    SubmissionState × Option SubmitError :=
  match toRating rating with
  | none => (st, some .invalidRating)
  | some rt =>
      match submit st.session item rt elapsedSec with
      | .error e => (st, some e)
      | .ok s2 => (⟨update st.memory rt elapsedDays now, s2⟩, none)

/-- C4: a submitted rating decodes exactly when it is one of 1, 2, 3, 4, and
any other value is rejected with `InvalidRating`, the memory state and the
session record both left unchanged. -/
theorem invalid_rating_rejected (st : SubmissionState) (item : ℕ) (r : ℚ)
    (es : ℕ) (ed now : ℚ) :
    ((toRating r).isSome ↔ (r = 1 ∨ r = 2 ∨ r = 3 ∨ r = 4)) ∧
    (¬(r = 1 ∨ r = 2 ∨ r = 3 ∨ r = 4) →
      processSubmission st item r es ed now = (st, some SubmitError.invalidRating)) := by
  by_cases h1 : r = 1
  · simp [toRating, h1]
  by_cases h2 : r = 2
  · simp [toRating, h1, h2]
  by_cases h3 : r = 3
  · simp [toRating, h1, h2, h3]
  by_cases h4 : r = 4
  · simp [toRating, h1, h2, h3, h4]
  have hnone : toRating r = none := by
    simp [toRating, h1, h2, h3, h4]
  constructor
  · simp [hnone, h1, h2, h3, h4]
  · intro _
    unfold processSubmission
    rw [hnone]

/-- A concrete combined state for the C4 witness. -/
def demoState : SubmissionState :=
  SubmissionState.mk (MemoryState.mk 2 5 3 0 .review 0 2) demoSession

/-- C4 witness: the rating 5 is rejected with `InvalidRating` and the
concrete state is unchanged. -/
theorem invalid_rating_rejected_witness :
    ¬((5 : ℚ) = 1 ∨ (5 : ℚ) = 2 ∨ (5 : ℚ) = 3 ∨ (5 : ℚ) = 4) ∧
    processSubmission demoState 7 5 3 2 2 = (demoState, some SubmitError.invalidRating) :=
  ⟨by norm_num, (invalid_rating_rejected demoState 7 5 3 2 2).2 (by norm_num)⟩

/-- A due card handed to the session composer: item id, topic, due time
(`listDue` returns cards ordered by `dueAt`). -/
structure Card where
  itemId : ℕ
  topic : ℕ
  dueAt : ℤ
deriving DecidableEq, Repr

/-- A topic pool: each entry is a topic key with its due-ordered queue. -/
abbrev TopicPool := List (ℕ × List Card)

/-- Append a card to its topic's queue, keeping each queue in arrival
(due-time) order and topics in order of first appearance. -/
def insertCard : TopicPool → Card → TopicPool
  | [], c => [(c.topic, [c])]
  | (t, q) :: rest, c =>
      if c.topic = t then (t, q ++ [c]) :: rest
      else (t, q) :: insertCard rest c

/-- Modelled from the spec: partition the due cards by topic preserving each
topic's internal due-time order (§4.3). -/
def partitionByTopic (cs : List Card) : TopicPool :=
  cs.foldl insertCard []

/-- The entries of a pool that still hold unselected cards. -/
def nonemptyEntries (pool : TopicPool) : TopicPool :=
  pool.filter (fun p => !p.2.isEmpty)

/-- How many topics still hold unselected due cards. -/
def numNonempty (pool : TopicPool) : ℕ := (nonemptyEntries pool).length

/-- Whether an entry's head card belongs to topic `t`. -/
def headTopicIs (p : ℕ × List Card) (t : ℕ) : Bool :=
  match p.2 with
  | [] => false
  | c :: _ => c.topic = t

/-- The due time of an entry's head card (0 on an empty queue; only applied
to non-empty entries). -/
def headDue (p : ℕ × List Card) : ℤ :=
  match p.2 with
  | [] => 0
  | c :: _ => c.dueAt

/-- Modelled from the spec: the candidate entries for the next selection at
`maxTopicRunLength = 1` — the non-empty entries, with the topic of the
previously emitted card excluded whenever at least two topics still hold due
cards (§4.3's run-length constraint). -/
def candidates (pool : TopicPool) (avoid : Option ℕ) : TopicPool :=
  let ne := nonemptyEntries pool
  match avoid with
  | none => ne
  | some t => if 2 ≤ ne.length then ne.filter (fun p => !headTopicIs p t) else ne

/-- Pick the entry whose head card is most overdue (smallest due time),
keeping the first such entry on ties, deterministically. -/
def pickFrom : TopicPool → Option (ℕ × List Card)
  | [] => none
  | p :: rest =>
      match pickFrom rest with
      | none => some p
      | some q => if headDue p ≤ headDue q then some p else some q

/-- Remove the head card of the entry keyed by topic `t`. -/
def popTopic : TopicPool → ℕ → TopicPool
  | [], _ => []
  | (t2, q) :: rest, t =>
      if t2 = t then (t2, q.tail) :: rest
      else (t2, q) :: popTopic rest t

/-- Modelled from the spec: one selection step of the composer at jitter
probability 0 (the randomization of §4.3 disabled, as in the claims): pick
the most-overdue candidate head, emit it, pop it from its topic queue, and
remember its topic as the one to avoid next. -/
def stepState (s : TopicPool × Option ℕ) : Option (Card × (TopicPool × Option ℕ)) :=
  match pickFrom (candidates s.1 s.2) with
  | none => none
  | some (_, []) => none
  | some (t, c :: _) => some (c, (popTopic s.1 t, some c.topic))

/-- Emit up to `n` cards by iterating the selection step. -/
def composeAux : ℕ → TopicPool × Option ℕ → List Card
  | 0, _ => []
  | n + 1, s =>
      match stepState s with
      | none => []
      | some (c, s2) => c :: composeAux n s2

/-- Modelled from the spec: `SessionComposer.compose` of the missing
`session_manager.py` (§4.3), at `maxTopicRunLength = 1` and jitter 0:
partition the due cards by topic, then repeatedly select until `targetCount`
cards are chosen or the pool is exhausted.  An empty due pool is a valid
input producing the empty sequence — the composer never errors (§7). -/
def compose (dueCards : List Card) (targetCount : ℕ) : List Card :=
  composeAux targetCount (partitionByTopic dueCards, none)

/-- The composer state after `n` selections, `none` once selection stopped. -/
def iterState : ℕ → TopicPool × Option ℕ → Option (TopicPool × Option ℕ)
  | 0, s => some s
  | n + 1, s =>
      match stepState s with
      | none => none
      | some (_, s2) => iterState n s2

/-- The view states of the PracticeSession component
(`src/unnamed/part_001`), in its dispatch order. -/
inductive SessionView where
  | loading
  | errorView
  | noCardsDue
  | complete
  | activeCard
deriving DecidableEq, Repr

/-- Translated from the render dispatch of the PracticeSession component
(`src/unnamed/part_001`): loading first, then the error banner, then the
"No cards due for review" branch on an empty card list, then the completion
summary, else the active card. -/
def renderSession (isLoading : Bool) (err : Option String)
    (cards : List Card) (summary : Option SessionSummary) : SessionView :=
  if isLoading then .loading
  else if err.isSome then .errorView
  else if cards.length = 0 then .noCardsDue
  else if summary.isSome then .complete
  else .activeCard

/-- C3: composing from an empty due-card pool returns the empty sequence (the
composer is total — it has no error outcome), and the caller renders the
empty-pool case as the distinct "no cards due" view, which is not the error
view. -/
theorem empty_pool_composes_empty :
    (∀ targetCount : ℕ, compose [] targetCount = []) ∧
    (∀ summary : Option SessionSummary,
      renderSession false none [] summary = SessionView.noCardsDue) ∧
    SessionView.noCardsDue ≠ SessionView.errorView := by
  refine ⟨fun targetCount => ?_, fun summary => rfl, by decide⟩
  cases targetCount <;> rfl

/-- The entry picked by `pickFrom` belongs to the candidate list. -/
theorem pickFrom_mem : ∀ (l : TopicPool) (p : ℕ × List Card),
    pickFrom l = some p → p ∈ l := by
  intro l
  induction l with
  | nil => intro p h; simp [pickFrom] at h
  | cons q rest ih =>
    intro p h
    rw [pickFrom] at h
    cases hr : pickFrom rest with
    | none =>
        simp only [hr] at h
        injection h with h
        exact h ▸ List.mem_cons_self q rest
    | some q2 =>
        simp only [hr] at h
        by_cases hle : headDue q ≤ headDue q2
        · rw [if_pos hle] at h
          injection h with h
          exact h ▸ List.mem_cons_self q rest
        · rw [if_neg hle] at h
          injection h with h
          exact List.mem_cons_of_mem q (h ▸ ih q2 hr)

/-- A successful step comes from picking a candidate entry with the emitted
card at its head, and records the emitted card's topic as the next one to
avoid. -/
theorem step_picked (s : TopicPool × Option ℕ) (c : Card)
    (s2 : TopicPool × Option ℕ) (h : stepState s = some (c, s2)) :
    ∃ tk rest, pickFrom (candidates s.1 s.2) = some (tk, c :: rest) ∧
      s2 = (popTopic s.1 tk, some c.topic) := by
  rw [stepState] at h
  cases hp : pickFrom (candidates s.1 s.2) with
  | none => rw [hp] at h; simp at h
  | some p =>
      rw [hp] at h
      obtain ⟨tk, q⟩ := p
      cases q with
      | nil => simp at h
      | cons c0 rest =>
          simp only at h
          injection h with h
          injection h with hc hs
          subst hc
          exact ⟨tk, rest, rfl, hs.symm⟩

/-- A successful step remembers the emitted card's topic. -/
theorem step_next_avoid (s : TopicPool × Option ℕ) (c : Card)
    (s2 : TopicPool × Option ℕ) (h : stepState s = some (c, s2)) :
    s2.2 = some c.topic := by
  obtain ⟨tk, rest, _, hs⟩ := step_picked s c s2 h
  rw [hs]

/-- When at least two topics still hold due cards, the step never emits the
avoided topic. -/
theorem step_avoids (s : TopicPool × Option ℕ) (t : ℕ) (c : Card)
    (s2 : TopicPool × Option ℕ) (h : stepState s = some (c, s2))
    (ha : s.2 = some t) (h2 : 2 ≤ numNonempty s.1) : c.topic ≠ t := by
  obtain ⟨tk, rest, hpick, _⟩ := step_picked s c s2 h
  rw [ha] at hpick
  have h2l : 2 ≤ (nonemptyEntries s.1).length := h2
  have hcand : candidates s.1 (some t) =
      (nonemptyEntries s.1).filter (fun p => !headTopicIs p t) := by
    simp only [candidates]
    rw [if_pos h2l]
  rw [hcand] at hpick
  have hmem := pickFrom_mem _ _ hpick
  have hflt := (List.mem_filter.mp hmem).2
  simp only [headTopicIs, Bool.not_eq_true'] at hflt
  exact of_decide_eq_false hflt

/-- Adjacent same-topic cards in the composed trace can only occur once at
most one topic still holds unselected cards. -/
theorem composeAux_adjacent :
    ∀ (n : ℕ) (s : TopicPool × Option ℕ) (i : ℕ) (c c2 : Card),
      (composeAux n s).get? i = some c →
      (composeAux n s).get? (i + 1) = some c2 →
      c.topic = c2.topic →
      ∃ pool avoid, iterState (i + 1) s = some (pool, avoid) ∧
        numNonempty pool ≤ 1 := by
  intro n
  induction n with
  | zero =>
      intro s i c c2 h1 _ _
      simp [composeAux] at h1
  | succ n ih =>
      intro s i c c2 h1 h2 htop
      cases hstep : stepState s with
      | none =>
          rw [composeAux, hstep] at h1
          simp at h1
      | some cs1 =>
          obtain ⟨c0, s1⟩ := cs1
          rw [composeAux, hstep] at h1 h2
          cases i with
          | zero =>
              rw [List.get?_cons_zero] at h1
              injection h1 with h1
              rw [List.get?_cons_succ] at h2
              have hiter : iterState 1 s = some s1 := by
                rw [iterState, hstep]; rfl
              cases n with
              | zero => simp [composeAux] at h2
              | succ m =>
                  cases hstep1 : stepState s1 with
                  | none =>
                      rw [composeAux, hstep1] at h2
                      simp at h2
                  | some cs2 =>
                      obtain ⟨c3, s3⟩ := cs2
                      rw [composeAux, hstep1] at h2
                      rw [List.get?_cons_zero] at h2
                      injection h2 with h2
                      refine ⟨s1.1, s1.2, by rw [hiter], ?_⟩
                      by_contra hgt
                      push_neg at hgt
                      have havoid := step_next_avoid s c0 s1 hstep
                      have := step_avoids s1 c0.topic c3 s3 hstep1 havoid hgt
                      rw [← h1, ← h2] at htop
                      exact this htop.symm
          | succ j =>
              rw [List.get?_cons_succ] at h1 h2
              obtain ⟨pool, avoid, hit, hle⟩ := ih s1 j c c2 h1 h2 htop
              refine ⟨pool, avoid, ?_, hle⟩
              rw [iterState, hstep]
              exact hit

/-- How many cards of the pool belong to topic `t`. -/
def topicCount (cs : List Card) (t : ℕ) : ℕ :=
  (cs.filter (fun c => c.topic == t)).length

/-- C7: for a due-card pool drawn from three topics with at least two cards
each, the composition at `maxTopicRunLength = 1` and jitter 0 never places
two consecutive same-topic cards, except where fewer than two topics still
held unselected due cards at the moment the second card was chosen. -/
theorem compose_interleaves (dueCards : List Card) (targetCount : ℕ)
    (t1 t2 t3 : ℕ)
    (_hdist : t1 ≠ t2 ∧ t1 ≠ t3 ∧ t2 ≠ t3)
    (_hcover : ∀ c ∈ dueCards, c.topic = t1 ∨ c.topic = t2 ∨ c.topic = t3)
    (_hcnt : 2 ≤ topicCount dueCards t1 ∧ 2 ≤ topicCount dueCards t2 ∧
      2 ≤ topicCount dueCards t3) :
    ∀ (i : ℕ) (c c2 : Card),
      (compose dueCards targetCount).get? i = some c →
      (compose dueCards targetCount).get? (i + 1) = some c2 →
      c.topic = c2.topic →
      ∃ pool avoid,
        iterState (i + 1) (partitionByTopic dueCards, none) = some (pool, avoid) ∧
        numNonempty pool ≤ 1 := by
  intro i c c2 h1 h2 htop
  exact composeAux_adjacent targetCount (partitionByTopic dueCards, none) i c c2 h1 h2 htop

/-- The concrete six-card pool (three topics, two cards each) used by the C7
witness. -/
def demoPool : List Card :=
  [⟨1, 0, 0⟩, ⟨2, 1, 1⟩, ⟨3, 2, 2⟩, ⟨4, 0, 3⟩, ⟨5, 1, 4⟩, ⟨6, 2, 5⟩]

/-- C7 witness: the interleaving theorem at the concrete six-card pool. -/
theorem compose_interleaves_witness :
    ((0 : ℕ) ≠ 1 ∧ (0 : ℕ) ≠ 2 ∧ (1 : ℕ) ≠ 2) ∧
    (∀ c ∈ demoPool, c.topic = 0 ∨ c.topic = 1 ∨ c.topic = 2) ∧
    (2 ≤ topicCount demoPool 0 ∧ 2 ≤ topicCount demoPool 1 ∧
      2 ≤ topicCount demoPool 2) ∧
    (∀ (i : ℕ) (c c2 : Card),
      (compose demoPool 10).get? i = some c →
      (compose demoPool 10).get? (i + 1) = some c2 →
      c.topic = c2.topic →
      ∃ pool avoid,
        iterState (i + 1) (partitionByTopic demoPool, none) = some (pool, avoid) ∧
        numNonempty pool ≤ 1) :=
  ⟨by decide, by decide, by decide,
    compose_interleaves demoPool 10 0 1 2 (by decide) (by decide) (by decide)⟩

/-- The observable outcome of one HTTP attempt of
`TranscriptionAPIClient.makeRequest` (`frontend/utils/apiClient.ts`):
a 2xx success, a non-ok HTTP status whose JSON body may carry a `detail`
field, or a caught network/timeout failure with its message.  `makeRequest`
catches every failure and returns a `Result`, so no attempt throws to the
retry loop. -/
inductive AttemptOutcome where
  | httpOk (transcriptionId : ℕ)
  | httpError (statusCode : ℕ) (detail : Option String)
  | netError (message : String)
deriving DecidableEq, Repr

/-- Translated from `makeRequest` (apiClient.ts lines 158-171): the error
message of a non-ok response is `data.detail` when present, otherwise
`"HTTP <status>: <statusText>"` (the status text abstracted). -/
def attemptResult : AttemptOutcome → Except String ℕ
  | .httpOk id2 => .ok id2
  | .httpError status detail =>
      .error (detail.getD ("HTTP " ++ toString status ++ ": request failed"))
  | .netError m => .error m

/-- Translated from `isClientError` (apiClient.ts lines 207-210): the message
matches the regular expression `^HTTP 4\d\x7b2\x7d`. -/
def isClientErrorMsg (m : String) : Bool :=
  match m.toList with
  | 'H' :: 'T' :: 'T' :: 'P' :: ' ' :: '4' :: d1 :: d2 :: _ => d1.isDigit && d2.isDigit
  | _ => false

/-- Translated from the retry loop of `submitTranscription` (apiClient.ts
lines 56-113): run the remaining attempts in order, return on success,
return early when `isClientError` accepts the failure message, otherwise
remember the error and retry; once attempts are exhausted return the last
error (or the generic message).  The second component counts the HTTP
attempts performed. -/
def submitAux (outcomes : ℕ → AttemptOutcome) :
    ℕ → ℕ → Option String → Except String ℕ × ℕ
  | 0, k, lastErr =>
      (.error (lastErr.getD "Failed to submit transcription after multiple attempts"), k)
  | n + 1, k, _lastErr =>
      match attemptResult (outcomes k) with
      | .ok r => (.ok r, k + 1)
      | .error m =>
          if isClientErrorMsg m then (.error m, k + 1)
          else submitAux outcomes n (k + 1) (some m)

/-- `TranscriptionAPIClient.submitTranscription` as a function of the
per-attempt outcomes and `retryConfig.maxAttempts` (default 3): a total
function into `Result × attempt count` — it always returns a value. -/
def submitTranscription (outcomes : ℕ → AttemptOutcome) (maxAttempts : ℕ) :
    Except String ℕ × ℕ :=
  submitAux outcomes maxAttempts 0 none

/-- Every attempt of the failing scenario: HTTP 400 whose JSON body carries
`detail: "Invalid payload"`, as the repository's own `APIError` shape
(`detail` always present) produces. -/
def badOutcomes : ℕ → AttemptOutcome :=
  fun _ => .httpError 400 (some "Invalid payload")

/-- Every attempt: HTTP 400 with no `detail` field in the body. -/
def bareOutcomes : ℕ → AttemptOutcome :=
  fun _ => .httpError 400 none

/-- C8 (failing evaluation): when a 4xx response body carries a `detail`
field — the shape the repository's own `APIError` type always has — the
error message is the detail text, `isClientError`'s `^HTTP 4\d\x7b2\x7d` test
fails, and the client performs all 3 attempts instead of stopping after the
first 4xx; only a detail-less 4xx stops the loop at one attempt, contradicting
the loop's stated "Don't retry on client errors (4xx)" behavior. -/
theorem submitTranscription_retries_detailed_4xx :
    (submitTranscription badOutcomes 3).2 = 3 ∧
    isClientErrorMsg "Invalid payload" = false ∧
    (submitTranscription bareOutcomes 3).2 = 1 ∧
    isClientErrorMsg "HTTP 400: request failed" = true := by
  refine ⟨rfl, rfl, rfl, rfl⟩

/-- Translated from `truncateText` (`src/unnamed/part_002` lines 1005-1010),
the JavaScript string modelled as its list of characters: return the text
unchanged when it fits, else the first `maxLength - 3` characters followed by
an ellipsis. -/
def truncateText (text : List Char) (maxLength : ℕ) : List Char :=
  if text.length ≤ maxLength then text
  else text.take (maxLength - 3) ++ ['.', '.', '.']

/-- C9: for `maxLength ≥ 3`, `truncateText` returns the input unchanged when
it fits, and otherwise a string of length exactly `maxLength` whose prefix is
the first `maxLength - 3` input characters and whose last three characters
are the ellipsis. -/
theorem truncateText_spec (text : List Char) (maxLength : ℕ)
    (h3 : 3 ≤ maxLength) :
    (text.length ≤ maxLength → truncateText text maxLength = text) ∧
    (maxLength < text.length →
      (truncateText text maxLength).length = maxLength ∧
      (truncateText text maxLength).take (maxLength - 3) = text.take (maxLength - 3) ∧
      (truncateText text maxLength).drop (maxLength - 3) = ['.', '.', '.']) := by
  constructor
  · intro h
    unfold truncateText
    rw [if_pos h]
  · intro h
    have hne : ¬text.length ≤ maxLength := not_le.mpr h
    have htk : (text.take (maxLength - 3)).length = maxLength - 3 := by
      rw [List.length_take]
      omega
    unfold truncateText
    rw [if_neg hne]
    refine ⟨?_, ?_, ?_⟩
    · rw [List.length_append, htk]
      simp only [List.length_cons, List.length_nil]
      omega
    · have h1 := List.take_left (text.take (maxLength - 3)) ['.', '.', '.']
      rw [htk] at h1
      rw [h1]
    · have h1 := List.drop_left (text.take (maxLength - 3)) ['.', '.', '.']
      rw [htk] at h1
      rw [h1]

/-- C9 witness: truncating a six-character text to length 5. -/
theorem truncateText_spec_witness :
    3 ≤ 5 ∧
    ((['a', 'b', 'c', 'd', 'e', 'f'].length ≤ 5 →
        truncateText ['a', 'b', 'c', 'd', 'e', 'f'] 5 = ['a', 'b', 'c', 'd', 'e', 'f']) ∧
      (5 < (['a', 'b', 'c', 'd', 'e', 'f'] : List Char).length →
        (truncateText ['a', 'b', 'c', 'd', 'e', 'f'] 5).length = 5 ∧
        (truncateText ['a', 'b', 'c', 'd', 'e', 'f'] 5).take (5 - 3) =
          (['a', 'b', 'c', 'd', 'e', 'f'] : List Char).take (5 - 3) ∧
        (truncateText ['a', 'b', 'c', 'd', 'e', 'f'] 5).drop (5 - 3) = ['.', '.', '.'])) :=
  ⟨by decide, truncateText_spec ['a', 'b', 'c', 'd', 'e', 'f'] 5 (by decide)⟩

/-- The document types of the OCR structure analyzer
(`src/unnamed/part_000`). -/
inductive DocumentType where
  | syllabus
  | lectureNotes
  | problemSet
  | exam
  | homework
  | textbook
  | handwrittenNotes
  | researchPaper
  | unknown
deriving DecidableEq, Repr

/-- The iteration order of `Object.entries(scores)` in `detectDocumentType`
(`src/unnamed/part_002` lines 198-229): insertion order of the scores
object. -/
def docTypeOrder : List DocumentType :=
  [.syllabus, .lectureNotes, .problemSet, .exam, .homework, .textbook,
    .handwrittenNotes, .researchPaper, .unknown]

/-- One step of the maximum scan of `detectDocumentType` (lines 224-229):
strictly improve the running maximum, keeping the earlier type on ties. -/
def scanStep (scores : DocumentType → ℕ) (acc : ℕ × DocumentType)
    (t : DocumentType) : ℕ × DocumentType :=
  if acc.1 < scores t then (scores t, t) else acc

/-- The maximum scan of `detectDocumentType`, starting from
`(maxScore, detectedType) = (0, unknown)`. -/
def scanScores (scores : DocumentType → ℕ) : ℕ × DocumentType :=
  docTypeOrder.foldl (scanStep scores) (0, .unknown)

/-- Translated from `detectDocumentType` (`src/unnamed/part_002` lines
197-237).  The per-type total regex-match counts are abstracted as a given
score function (the regular-expression engine is outside the embedding); the
selection logic is embedded exactly: scan for the first type achieving the
maximum score, then require the minimum threshold 2, else `unknown`.  A total
deterministic function of the scores. -/
def detectDocumentType (scores : DocumentType → ℕ) : DocumentType :=
  if (scanScores scores).1 < 2 then .unknown else (scanScores scores).2

/-- The running maximum of the scan never decreases. -/
theorem scan_fst_ge_init (scores : DocumentType → ℕ) :
    ∀ (l : List DocumentType) (acc : ℕ × DocumentType),
      acc.1 ≤ (l.foldl (scanStep scores) acc).1 := by
  intro l
  induction l with
  | nil => intro acc; exact le_refl _
  | cons t l2 ih =>
      intro acc
      refine le_trans ?_ (ih (scanStep scores acc t))
      unfold scanStep
      by_cases hlt : acc.1 < scores t
      · rw [if_pos hlt]; exact le_of_lt hlt
      · rw [if_neg hlt]

/-- The running maximum of the scan dominates every scanned score. -/
theorem scan_fst_ge_mem (scores : DocumentType → ℕ) :
    ∀ (l : List DocumentType) (acc : ℕ × DocumentType) (t : DocumentType),
      t ∈ l → scores t ≤ (l.foldl (scanStep scores) acc).1 := by
  intro l
  induction l with
  | nil => intro acc t ht; cases ht
  | cons t0 l2 ih =>
      intro acc t ht
      rcases List.mem_cons.mp ht with h | h
      · subst h
        refine le_trans ?_ (scan_fst_ge_init scores l2 (scanStep scores acc t))
        unfold scanStep
        by_cases hlt : acc.1 < scores t
        · rw [if_pos hlt]
        · rw [if_neg hlt]; exact le_of_not_lt hlt
      · exact ih (scanStep scores acc t0) t h

/-- The scan's detected type achieves the running maximum, unless the
maximum is still the initial 0. -/
theorem scan_achieves (scores : DocumentType → ℕ) :
    ∀ (l : List DocumentType) (acc : ℕ × DocumentType),
      scores acc.2 = acc.1 ∨ acc.1 = 0 →
      scores (l.foldl (scanStep scores) acc).2 = (l.foldl (scanStep scores) acc).1 ∨
        (l.foldl (scanStep scores) acc).1 = 0 := by
  intro l
  induction l with
  | nil => intro acc h; exact h
  | cons t l2 ih =>
      intro acc h
      refine ih (scanStep scores acc t) ?_
      unfold scanStep
      by_cases hlt : acc.1 < scores t
      · rw [if_pos hlt]; exact Or.inl rfl
      · rw [if_neg hlt]; exact h

/-- Every document type is scanned. -/
theorem mem_docTypeOrder (t : DocumentType) : t ∈ docTypeOrder := by
  cases t <;> simp [docTypeOrder]

/-- C10: `detectDocumentType` returns `unknown` whenever every type's total
match count is below 2, and otherwise returns a type achieving the maximum
count (it is a total deterministic function of the scores). -/
theorem detectDocumentType_threshold (scores : DocumentType → ℕ) :
    ((∀ t, scores t < 2) → detectDocumentType scores = DocumentType.unknown) ∧
    ((∃ t, 2 ≤ scores t) →
      ∀ t, scores t ≤ scores (detectDocumentType scores)) := by
  constructor
  · intro hall
    unfold detectDocumentType
    have hach := scan_achieves scores docTypeOrder (0, .unknown) (Or.inr rfl)
    have hlt2 : (scanScores scores).1 < 2 := by
      unfold scanScores
      rcases hach with h | h
      · rw [← h]; exact hall _
      · rw [h]; norm_num
    rw [if_pos hlt2]
  · rintro ⟨t0, ht0⟩ t
    have hge := scan_fst_ge_mem scores docTypeOrder (0, .unknown) t0 (mem_docTypeOrder t0)
    have h2 : 2 ≤ (docTypeOrder.foldl (scanStep scores) (0, .unknown)).1 :=
      le_trans ht0 hge
    have hach := scan_achieves scores docTypeOrder (0, .unknown) (Or.inr rfl)
    unfold detectDocumentType scanScores
    rcases hach with h | h
    · rw [if_neg (not_lt.mpr h2), h]
      exact scan_fst_ge_mem scores docTypeOrder (0, .unknown) t (mem_docTypeOrder t)
    · rw [h] at h2
      omega

/-- Concrete scores for the C10 witness: three matches for `exam`, none
elsewhere. -/
def demoScores : DocumentType → ℕ :=
  fun t => if t = DocumentType.exam then 3 else 0

/-- C10 witness: with a type scoring 3, the detected type achieves the
maximum score. -/
theorem detectDocumentType_threshold_witness :
    (∃ t, 2 ≤ demoScores t) ∧
    (∀ t, demoScores t ≤ demoScores (detectDocumentType demoScores)) :=
  ⟨⟨.exam, by decide⟩,
    (detectDocumentType_threshold demoScores).2 ⟨.exam, by decide⟩⟩

end Zeno
